import Mathlib

/-!
Shallow embedding of the chunking and retrieval pipeline of the
medical-rag-system repository (src/embeddings/embedder.py, src/rag/llm_chain.py,
src/rag/retriever.py, src/vectorstore/pinecone_db.py, src/utils/config.py),
with theorems settling the specification claims about it.
-/

namespace MedicalRag

set_option maxRecDepth 40000

/-- Helper for `pysplit`: scan the character list, accumulating the current
word in reverse; whitespace closes the current word (if any), any other
character extends it. -/
def wordsAux : List Char → List Char → List (List Char)
  | acc, [] => if acc.isEmpty then [] else [acc.reverse]
  | acc, c :: cs =>
    if c.isWhitespace then
      if acc.isEmpty then wordsAux [] cs else acc.reverse :: wordsAux [] cs
    else wordsAux (c :: acc) cs

/-- Python `str.split()` with no argument: split on runs of whitespace and
drop empty pieces.  Used both by the paragraph word-count filter and by
`_chunk_text` in src/embeddings/embedder.py. -/
def pysplit (s : String) : List String :=
  (wordsAux [] s.data).map (fun l => String.mk l)

namespace Config

/-- src/utils/config.py line 28. -/
def CHUNK_SIZE : Nat := 1200

/-- src/utils/config.py line 29. -/
def CHUNK_OVERLAP : Nat := 200

/-- src/utils/config.py line 33. -/
def TOP_K : Nat := 5

/-- src/utils/config.py line 36. -/
def GROQ_MODEL_PRIMARY : String := "llama-3.3-70b-versatile"

/-- src/utils/config.py line 37. -/
def GROQ_MODEL_FALLBACK : String := "llama-3.1-8b-instant"

end Config

/-- Structural recursion core of the `_chunk_text` loop: the fuel argument
only bounds the number of iterations and is invisible as soon as it is at
least the word count (`chunkWordsFuel_congr`).  Each iteration emits the
window of `W` words at the current position and advances by `S`
(`max S 1 = S` for every positive step; for step 0 the Python loop does not
terminate, so no total function can model that case). -/
def chunkWordsFuel (W S : Nat) : Nat → List α → List (List α)
  | 0, _ => []
  | _, [] => []
  | fuel + 1, w :: ws =>
    ((w :: ws).take W) :: chunkWordsFuel W S fuel ((w :: ws).drop (max S 1))

/-- The word-window loop of `ChunkEmbedder._chunk_text`
(src/embeddings/embedder.py lines 87-94): starting at index 0 and while the
start index is below the word count, emit the window of `W` words at the
start index and advance the start index by `S`. -/
def chunkWords (W S : Nat) (ws : List α) : List (List α) :=
  chunkWordsFuel W S ws.length ws

theorem chunkWordsFuel_congr (W S : Nat) :
    ∀ (f1 f2 : Nat) (ws : List α), ws.length ≤ f1 → ws.length ≤ f2 →
      chunkWordsFuel W S f1 ws = chunkWordsFuel W S f2 ws := by
  intro f1
  induction f1 with
  | zero =>
    intro f2 ws h1 h2
    have : ws = [] := by
      cases ws with
      | nil => rfl
      | cons w ws => simp at h1
    subst this
    cases f2 <;> rfl
  | succ f1 ih =>
    intro f2 ws h1 h2
    cases ws with
    | nil => cases f2 <;> rfl
    | cons w ws =>
      cases f2 with
      | zero => simp at h2
      | succ f2 =>
        show ((w :: ws).take W) :: chunkWordsFuel W S f1 ((w :: ws).drop (max S 1))
            = ((w :: ws).take W) :: chunkWordsFuel W S f2 ((w :: ws).drop (max S 1))
        have hlen : ((w :: ws).drop (max S 1)).length ≤ f1 := by
          simp only [List.length_drop, List.length_cons] at h1 ⊢
          omega
        have hlen2 : ((w :: ws).drop (max S 1)).length ≤ f2 := by
          simp only [List.length_drop, List.length_cons] at h2 ⊢
          omega
        rw [ih _ _ hlen hlen2]

theorem chunkWords_nil (W S : Nat) : chunkWords W S ([] : List α) = [] := by
  rfl

theorem chunkWords_of_ne_nil (W : Nat) {S : Nat} (hS : 0 < S) {ws : List α}
    (h : ws ≠ []) :
    chunkWords W S ws = ws.take W :: chunkWords W S (ws.drop S) := by
  cases ws with
  | nil => exact absurd rfl h
  | cons w ws =>
    show chunkWordsFuel W S (ws.length + 1) (w :: ws)
        = (w :: ws).take W :: chunkWords W S ((w :: ws).drop S)
    rw [chunkWordsFuel]
    rw [Nat.max_eq_left hS]
    unfold chunkWords
    rw [chunkWordsFuel_congr W S ws.length ((w :: ws).drop S).length ((w :: ws).drop S)
      (by simp only [List.length_drop, List.length_cons]; omega) (Nat.le_refl _)]

theorem chunkWords_ne_nil (W : Nat) {S : Nat} (hS : 0 < S) {ws : List α}
    (h : ws ≠ []) : chunkWords W S ws ≠ [] := by
  rw [chunkWords_of_ne_nil W hS h]
  simp

/-- The number of windows the `_chunk_text` loop emits over a non-empty word
list of length `L` is `(L - 1) / S + 1`, i.e. the ceiling of `L / S`: the
loop runs once for every start index `0, S, 2*S, ...` strictly below `L`. -/
theorem length_chunkWords {S : Nat} (W : Nat) (hS : 0 < S) :
    ∀ ws : List α, ws ≠ [] →
      (chunkWords W S ws).length = (ws.length - 1) / S + 1 := by
  have key : ∀ (n : Nat) (ws : List α), ws.length ≤ n → ws ≠ [] →
      (chunkWords W S ws).length = (ws.length - 1) / S + 1 := by
    intro n
    induction n with
    | zero =>
      intro ws hle hne
      cases ws with
      | nil => exact absurd rfl hne
      | cons w ws => simp at hle
    | succ n ih =>
      intro ws hle hne
      have hpos : 0 < ws.length := List.length_pos.mpr hne
      rw [chunkWords_of_ne_nil W hS hne]
      by_cases hd : ws.drop S = []
      · rw [hd, chunkWords_nil]
        rw [List.drop_eq_nil_iff] at hd
        have hdiv : (ws.length - 1) / S = 0 := Nat.div_eq_of_lt (by omega)
        simp [hdiv]
      · have hSlt : S < ws.length := by
          rw [List.drop_eq_nil_iff] at hd
          omega
        have hlen : (ws.drop S).length ≤ n := by
          simp only [List.length_drop]
          omega
        rw [List.length_cons, ih _ hlen hd]
        simp only [List.length_drop]
        have hsplit : ws.length - 1 = (ws.length - S - 1) + S := by omega
        rw [hsplit, Nat.add_div_right _ hS]
  exact fun ws h => key ws.length ws (Nat.le_refl _) h

/-- `ChunkEmbedder._chunk_text` (src/embeddings/embedder.py lines 75-96),
parametrised by the `chunk_size` and `chunk_overlap` the instance was
configured with: split the text into words, then slide a window of
`int(chunk_size * 0.75)` words advancing by window minus
`int(chunk_overlap * 0.75)` words, joining each window with single spaces.
`n * 3 / 4` in natural-number arithmetic equals `int(n * 0.75)` for the
integer token counts involved. -/
def chunkTextP (chunkSize chunkOverlap : Nat) (text : String) : List String :=
  let wordsPerChunk := chunkSize * 3 / 4
  let wordsOverlap := chunkOverlap * 3 / 4
  (chunkWords wordsPerChunk (wordsPerChunk - wordsOverlap) (pysplit text)).map
    (String.intercalate " ")

/-- `_chunk_text` at the repository's fixed configuration
(CHUNK_SIZE = 1200, CHUNK_OVERLAP = 200): windows of 900 words advancing by
750 words. -/
def chunkText : String → List String :=
  chunkTextP Config.CHUNK_SIZE Config.CHUNK_OVERLAP

/-- A concrete paragraph of exactly 20 one-letter words, long enough to be
accepted for chunking. -/
def para20 : String := "a a a a a a a a a a a a a a a a a a a a"

/-- C1 (counterexample): with CHUNK_SIZE_TOKENS = 28 and
CHUNK_OVERLAP_TOKENS = 24 we get window W = 21 and step S = 3 with
0 < S < W, and a paragraph of L = 20 words is accepted for chunking and has
L ≤ W, yet `_chunk_text` produces 7 chunks, not the single chunk the claim
asserts for L ≤ W: the loop keeps emitting trailing partial windows as long
as the start index is below L. -/
theorem c1_counterexample :
    20 ≤ (pysplit para20).length ∧
    (pysplit para20).length ≤ 28 * 3 / 4 ∧
    0 < 28 * 3 / 4 - 24 * 3 / 4 ∧
    28 * 3 / 4 - 24 * 3 / 4 < 28 * 3 / 4 ∧
    (chunkTextP 28 24 para20).length ≠ 1 := by
  decide

/-- C1 (amended): for a paragraph accepted for chunking (word count
L ≥ 20), window W = floor(CHUNK_SIZE_TOKENS * 0.75) and step
S = W - floor(CHUNK_OVERLAP_TOKENS * 0.75) with 0 < S < W, `_chunk_text`
produces exactly ceil(L / S) = (L + S - 1) / S chunks, whether or not
L exceeds W. -/
theorem c1_chunk_count (chunkSize chunkOverlap : Nat) (text : String)
    (hS : 0 < chunkSize * 3 / 4 - chunkOverlap * 3 / 4)
    (hL : 20 ≤ (pysplit text).length) :
    (chunkTextP chunkSize chunkOverlap text).length =
      ((pysplit text).length + (chunkSize * 3 / 4 - chunkOverlap * 3 / 4) - 1)
        / (chunkSize * 3 / 4 - chunkOverlap * 3 / 4) := by
  have hne : pysplit text ≠ [] := by
    intro h
    rw [h] at hL
    simp at hL
  unfold chunkTextP
  rw [List.length_map, length_chunkWords _ hS _ hne]
  have h1 : 1 ≤ (pysplit text).length := by omega
  have hsplit : (pysplit text).length + (chunkSize * 3 / 4 - chunkOverlap * 3 / 4) - 1
      = ((pysplit text).length - 1) + (chunkSize * 3 / 4 - chunkOverlap * 3 / 4) := by
    omega
  rw [hsplit, Nat.add_div_right _ hS]

/-- Witness for `c1_chunk_count` at the repository defaults
(W = 900, S = 750) on the concrete 20-word paragraph: one chunk. -/
theorem c1_chunk_count_witness :
    20 ≤ (pysplit para20).length ∧
    (chunkTextP 1200 200 para20).length =
      ((pysplit para20).length + (1200 * 3 / 4 - 200 * 3 / 4) - 1)
        / (1200 * 3 / 4 - 200 * 3 / 4) :=
  ⟨by decide, c1_chunk_count 1200 200 para20 (by decide) (by decide)⟩

/-- The reconstruction described by claim C3: keep the first `S` words of
every chunk except the last, then the last chunk in full, and concatenate. -/
def overlapConcat (S : Nat) : List (List α) → List α
  | [] => []
  | [c] => c
  | c :: c2 :: cs => c.take S ++ overlapConcat S (c2 :: cs)

/-- C3 (confirmed): for any word list and any window `W` and step `S` with
`0 < S < W`, concatenating the chunks produced by the `_chunk_text` loop
after removing the overlap (first `S` words of every chunk but the last,
last chunk in full) reconstructs the original word sequence exactly. -/
theorem c3_round_trip (W S : Nat) (hS : 0 < S) (hSW : S < W)
    (words : List String) :
    overlapConcat S (chunkWords W S words) = words := by
  have key : ∀ (n : Nat) (ws : List String), ws.length ≤ n →
      overlapConcat S (chunkWords W S ws) = ws := by
    intro n
    induction n with
    | zero =>
      intro ws hle
      cases ws with
      | nil => rw [chunkWords_nil]; rfl
      | cons w ws => simp at hle
    | succ n ih =>
      intro ws hle
      cases hws : ws with
      | nil => rw [chunkWords_nil]; rfl
      | cons w ws2 =>
        rw [← hws]
        have hne : ws ≠ [] := by rw [hws]; simp
        have hpos : 0 < ws.length := List.length_pos.mpr hne
        rw [chunkWords_of_ne_nil W hS hne]
        by_cases hd : ws.drop S = []
        · rw [hd, chunkWords_nil]
          show ws.take W = ws
          apply List.take_of_length_le
          rw [List.drop_eq_nil_iff] at hd
          omega
        · cases hcw : chunkWords W S (ws.drop S) with
          | nil => exact absurd hcw (chunkWords_ne_nil W hS hd)
          | cons c cs =>
            show (ws.take W).take S ++ overlapConcat S (c :: cs) = ws
            rw [← hcw]
            have hlen : (ws.drop S).length ≤ n := by
              simp only [List.length_drop]
              omega
            rw [ih _ hlen]
            rw [List.take_take, Nat.min_eq_left (Nat.le_of_lt hSW)]
            exact List.take_append_drop S ws
  exact key words.length words (Nat.le_refl _)

/-- Witness for `c3_round_trip`: window 3, step 2, a concrete 4-word list. -/
theorem c3_round_trip_witness :
    0 < 2 ∧ 2 < 3 ∧
    overlapConcat 2 (chunkWords 3 2 ["w1", "w2", "w3", "w4"]) =
      ["w1", "w2", "w3", "w4"] :=
  ⟨by decide, by decide, c3_round_trip 3 2 (by decide) (by decide) _⟩

/-- A page as produced by the PDF loader and consumed by
`ChunkEmbedder.create_chunks` (the `char_count` field is never read by the
Segmenter and is omitted). -/
structure Page where
  page_number : Nat
  text : String
deriving DecidableEq

/-- A chunk as built by `ChunkEmbedder.create_chunks`
(src/embeddings/embedder.py lines 54-64); the Python metadata sub-dictionary
(`book`, `page`, `paragraph`, `chunk_id`) is flattened into the record. -/
structure Chunk where
  id : String
  text : String
  book : String
  page : Nat
  paragraph : Nat
  chunk_id : Nat
deriving DecidableEq

/-- The decimal digit character for `d` (for `d < 10`). -/
def digitChar (d : Nat) : Char := Char.ofNat (48 + d)

/-- Digits of a positive natural number, most significant first; the fuel
argument only bounds the recursion depth and any fuel at least `n` gives
the same result (`natDigitsAux_eq`). -/
def natDigitsAux : Nat → Nat → List Char
  | 0, _ => []
  | fuel + 1, n =>
    if n = 0 then [] else natDigitsAux fuel (n / 10) ++ [digitChar (n % 10)]

/-- Decimal representation of a natural number as characters, as Python
`str(n)` renders it inside the chunk id f-string. -/
def natChars (n : Nat) : List Char :=
  if n = 0 then ['0'] else natDigitsAux n n

theorem natDigitsAux_eq (fuel : Nat) : ∀ n : Nat, n ≤ fuel →
    natDigitsAux fuel n = ((Nat.digits 10 n).map digitChar).reverse := by
  induction fuel with
  | zero =>
    intro n hn
    have : n = 0 := by omega
    subst this
    simp [natDigitsAux]
  | succ fuel ih =>
    intro n hn
    by_cases h0 : n = 0
    · subst h0
      simp [natDigitsAux]
    · rw [natDigitsAux, if_neg h0]
      have hdiv : n / 10 < n := Nat.div_lt_self (Nat.pos_of_ne_zero h0)
        (by norm_num)
      rw [ih (n / 10) (by omega)]
      rw [Nat.digits_def' (by norm_num : (1 : Nat) < 10)
        (Nat.pos_of_ne_zero h0)]
      rw [List.map_cons, List.reverse_cons]

theorem natChars_eq (n : Nat) :
    natChars n =
      if n = 0 then ['0'] else ((Nat.digits 10 n).map digitChar).reverse := by
  unfold natChars
  by_cases h : n = 0
  · rw [if_pos h, if_pos h]
  · rw [if_neg h, if_neg h, natDigitsAux_eq n n (Nat.le_refl n)]

/-- Decimal representation of a natural number as a string. -/
def natStr (n : Nat) : String := String.mk (natChars n)

/-- The chunk id f-string of src/embeddings/embedder.py line 56:
`f"{book_name}_page{page_num}_para{para_num}_chunk{chunk_id}"`. -/
def mkChunkId (book : String) (pageNum paraNum chunkId : Nat) : String :=
  book ++ "_page" ++ natStr pageNum ++ "_para" ++ natStr paraNum ++
    "_chunk" ++ natStr chunkId

/-- Value of a digit-character list read as a decimal numeral. -/
def charsVal (l : List Char) : Nat :=
  Nat.ofDigits 10 ((l.map (fun c => c.toNat - 48)).reverse)

/-- The value of the maximal digit suffix of a string: recovers the
`chunk_id` component from a chunk id, since the id ends in the decimal
rendering of `chunk_id` preceded by the non-digit character of "chunk". -/
def decodeTrailingNat (s : String) : Nat :=
  charsVal ((s.data.reverse.takeWhile (fun c => c.isDigit)).reverse)

/-- The inner loop of `create_chunks` (src/embeddings/embedder.py lines
54-65): append one chunk record per window text, incrementing the global
`chunk_id` counter; returns the chunks and the final counter. -/
def emitPara (book : String) (pageNum paraNum : Nat) :
    List String → Nat → List Chunk × Nat
  | [], cid => ([], cid)
  | t :: ts, cid =>
    let c : Chunk :=
      { id := mkChunkId book pageNum paraNum cid, text := t, book := book,
        page := pageNum, paragraph := paraNum, chunk_id := cid }
    let rest := emitPara book pageNum paraNum ts (cid + 1)
    (c :: rest.1, rest.2)

/-- The paragraph loop of `create_chunks` (src/embeddings/embedder.py lines
46-65): paragraphs are numbered from `paraNum` upward; a paragraph of fewer
than 20 whitespace-delimited words is skipped, any other paragraph is
chunked by `_chunk_text` and its chunks appended. -/
def processParas (book : String) (pageNum : Nat) :
    List String → Nat → Nat → List Chunk × Nat
  | [], _, cid => ([], cid)
  | p :: rest, paraNum, cid =>
    if (pysplit p).length < 20 then
      processParas book pageNum rest (paraNum + 1) cid
    else
      let e := emitPara book pageNum paraNum (chunkText p) cid
      let r := processParas book pageNum rest (paraNum + 1) e.2
      (e.1 ++ r.1, r.2)

/-- The page loop of `create_chunks` (src/embeddings/embedder.py lines
39-65), parametrised by the paragraph splitter (`_split_into_paragraphs`,
a regex split treated as an opaque collaborator here: the claims quantify
over its output). -/
def processPages (split : String → List String) (book : String) :
    List Page → Nat → List Chunk × Nat
  | [], cid => ([], cid)
  | pg :: rest, cid =>
    let pr := processParas book pg.page_number (split pg.text) 1 cid
    let r := processPages split book rest pr.2
    (pr.1 ++ r.1, r.2)

/-- `ChunkEmbedder.create_chunks` (src/embeddings/embedder.py lines 25-67):
process every page in order, starting the global `chunk_id` counter at 0. -/
def createChunks (split : String → List String) (pages : List Page)
    (book : String) : List Chunk :=
  (processPages split book pages 0).1

theorem emitPara_mem (book : String) (pn qn : Nat) :
    ∀ (ts : List String) (cid : Nat) (c : Chunk),
      c ∈ (emitPara book pn qn ts cid).1 →
      c.page = pn ∧ c.paragraph = qn ∧
        c.id = mkChunkId book pn qn c.chunk_id := by
  intro ts
  induction ts with
  | nil => intro cid c hc; simp [emitPara] at hc
  | cons t ts ih =>
    intro cid c hc
    simp only [emitPara, List.mem_cons] at hc
    cases hc with
    | inl h => subst h; exact ⟨rfl, rfl, rfl⟩
    | inr h => exact ih (cid + 1) c h

theorem emitPara_snd (book : String) (pn qn : Nat) :
    ∀ (ts : List String) (cid : Nat),
      (emitPara book pn qn ts cid).2 = cid + ts.length := by
  intro ts
  induction ts with
  | nil => intro cid; simp [emitPara]
  | cons t ts ih =>
    intro cid
    simp only [emitPara, List.length_cons]
    rw [ih (cid + 1)]
    omega

theorem emitPara_cid_map (book : String) (pn qn : Nat) :
    ∀ (ts : List String) (cid : Nat),
      (emitPara book pn qn ts cid).1.map (fun c => c.chunk_id) =
        List.range' cid ts.length := by
  intro ts
  induction ts with
  | nil => intro cid; simp [emitPara]
  | cons t ts ih =>
    intro cid
    simp only [emitPara, List.length_cons, List.map_cons, List.range'_succ]
    rw [ih (cid + 1)]

theorem emitPara_length (book : String) (pn qn : Nat)
    (ts : List String) (cid : Nat) :
    (emitPara book pn qn ts cid).1.length = ts.length := by
  have := emitPara_cid_map book pn qn ts cid
  have hlen := congrArg List.length this
  simp only [List.length_map, List.length_range'] at hlen
  exact hlen

theorem processParas_cid (book : String) (pn : Nat) :
    ∀ (ps : List String) (j cid : Nat),
      (processParas book pn ps j cid).1.map (fun c => c.chunk_id) =
        List.range' cid (processParas book pn ps j cid).1.length ∧
      (processParas book pn ps j cid).2 =
        cid + (processParas book pn ps j cid).1.length := by
  intro ps
  induction ps with
  | nil => intro j cid; simp [processParas]
  | cons p rest ih =>
    intro j cid
    by_cases hp : (pysplit p).length < 20
    · simp only [processParas, if_pos hp]
      exact ih (j + 1) cid
    · simp only [processParas, if_neg hp]
      obtain ⟨ihmap, ihsnd⟩ :=
        ih (j + 1) (emitPara book pn j (chunkText p) cid).2
      constructor
      · rw [List.map_append, emitPara_cid_map, ihmap, emitPara_snd,
          List.length_append, emitPara_length, List.range'_append_1]
        congr 1
        omega
      · rw [ihsnd, emitPara_snd, List.length_append, emitPara_length]
        omega

theorem processParas_mem (book : String) (pn : Nat) :
    ∀ (ps : List String) (j cid : Nat) (c : Chunk),
      c ∈ (processParas book pn ps j cid).1 →
      c.page = pn ∧ j ≤ c.paragraph ∧
        c.id = mkChunkId book c.page c.paragraph c.chunk_id := by
  intro ps
  induction ps with
  | nil => intro j cid c hc; simp [processParas] at hc
  | cons p rest ih =>
    intro j cid c hc
    by_cases hp : (pysplit p).length < 20
    · rw [processParas, if_pos hp] at hc
      obtain ⟨h1, h2, h3⟩ := ih (j + 1) cid c hc
      exact ⟨h1, by omega, h3⟩
    · rw [processParas, if_neg hp] at hc
      rw [List.mem_append] at hc
      cases hc with
      | inl h =>
        obtain ⟨h1, h2, h3⟩ := emitPara_mem book pn j (chunkText p) cid c h
        refine ⟨h1, by omega, ?_⟩
        rw [h1, h2]
        exact h3
      | inr h =>
        obtain ⟨h1, h2, h3⟩ :=
          ih (j + 1) (emitPara book pn j (chunkText p) cid).2 c h
        exact ⟨h1, by omega, h3⟩

theorem processPages_cid (split : String → List String) (book : String) :
    ∀ (pages : List Page) (cid : Nat),
      (processPages split book pages cid).1.map (fun c => c.chunk_id) =
        List.range' cid (processPages split book pages cid).1.length ∧
      (processPages split book pages cid).2 =
        cid + (processPages split book pages cid).1.length := by
  intro pages
  induction pages with
  | nil => intro cid; simp [processPages]
  | cons pg rest ih =>
    intro cid
    simp only [processPages]
    obtain ⟨hmap, hsnd⟩ := processParas_cid book pg.page_number
      (split pg.text) 1 cid
    obtain ⟨ihmap, ihsnd⟩ :=
      ih (processParas book pg.page_number (split pg.text) 1 cid).2
    constructor
    · rw [List.map_append, hmap, ihmap, hsnd, List.length_append,
        List.range'_append_1]
      congr 1
      omega
    · rw [ihsnd, hsnd, List.length_append]
      omega

theorem processPages_mem (split : String → List String) (book : String) :
    ∀ (pages : List Page) (cid : Nat) (c : Chunk),
      c ∈ (processPages split book pages cid).1 →
      (∃ pg ∈ pages, c.page = pg.page_number) ∧
        c.id = mkChunkId book c.page c.paragraph c.chunk_id := by
  intro pages
  induction pages with
  | nil => intro cid c hc; simp [processPages] at hc
  | cons pg rest ih =>
    intro cid c hc
    rw [processPages] at hc
    rw [List.mem_append] at hc
    cases hc with
    | inl h =>
      obtain ⟨h1, _, h3⟩ :=
        processParas_mem book pg.page_number (split pg.text) 1 cid c h
      exact ⟨⟨pg, by simp, h1⟩, h3⟩
    | inr h =>
      obtain ⟨⟨pg2, hpg2, h1⟩, h3⟩ := ih _ c h
      exact ⟨⟨pg2, by simp [hpg2], h1⟩, h3⟩

theorem digitChar_isDigit {d : Nat} (hd : d < 10) :
    (digitChar d).isDigit = true := by
  interval_cases d <;> decide

theorem digitChar_toNat {d : Nat} (hd : d < 10) :
    (digitChar d).toNat = 48 + d := by
  interval_cases d <;> decide

theorem natChars_isDigit (n : Nat) :
    ∀ c ∈ natChars n, c.isDigit = true := by
  intro c hc
  rw [natChars_eq] at hc
  by_cases h : n = 0
  · rw [if_pos h] at hc
    simp at hc
    subst hc
    decide
  · rw [if_neg h] at hc
    rw [List.mem_reverse, List.mem_map] at hc
    obtain ⟨d, hd, hc⟩ := hc
    subst hc
    exact digitChar_isDigit (Nat.digits_lt_base (by norm_num) hd)

theorem charsVal_natChars (n : Nat) : charsVal (natChars n) = n := by
  rw [natChars_eq]
  unfold charsVal
  by_cases h : n = 0
  · subst h
    simp [Nat.ofDigits]
  · rw [if_neg h]
    rw [List.map_reverse, List.reverse_reverse]
    rw [List.map_map]
    have hmap : (Nat.digits 10 n).map ((fun c => c.toNat - 48) ∘ digitChar) =
        (Nat.digits 10 n).map id := by
      apply List.map_congr_left
      intro d hd
      have hlt : d < 10 := Nat.digits_lt_base (by norm_num) hd
      simp [Function.comp, digitChar_toNat hlt]
    rw [hmap, List.map_id]
    exact Nat.ofDigits_digits 10 n

theorem takeWhile_all_append (p : Char → Bool) :
    ∀ (xs : List Char) (y : Char) (ys : List Char),
      (∀ x ∈ xs, p x = true) → p y = false →
      List.takeWhile p (xs ++ y :: ys) = xs := by
  intro xs
  induction xs with
  | nil =>
    intro y ys _ hy
    simp [List.takeWhile_cons, hy]
  | cons x xs ih =>
    intro y ys hall hy
    have hx : p x = true := hall x (by simp)
    simp [hx, List.takeWhile_cons, ih y ys (fun a ha => hall a (by simp [ha])) hy]

theorem decode_mkChunkId (book : String) (p q c : Nat) :
    decodeTrailingNat (mkChunkId book p q c) = c := by
  unfold decodeTrailingNat mkChunkId natStr
  simp only [String.data_append]
  simp only [List.reverse_append]
  have hchunk : (['_', 'c', 'h', 'u', 'n', 'k'] : List Char).reverse =
      ['k', 'n', 'u', 'h', 'c', '_'] := by decide
  rw [hchunk]
  simp only [List.cons_append]
  rw [takeWhile_all_append _ _ _ _
    (fun x hx => natChars_isDigit c x (List.mem_reverse.mp hx)) (by decide)]
  rw [List.reverse_reverse]
  exact charsVal_natChars c

/-- C9 (confirmed): within one run of `create_chunks`, the `chunk_id`
values are strictly increasing in emission order across all pages and
paragraphs, and the id strings — built from `book_name`, `page_number`,
`paragraph_number` and `chunk_id` — are pairwise distinct, because an id
determines its `chunk_id` as the value of its maximal digit suffix. -/
theorem c9_chunk_index_monotone_ids_unique (split : String → List String)
    (pages : List Page) (book : String) :
    List.Pairwise (· < ·)
      ((createChunks split pages book).map (fun c => c.chunk_id)) ∧
    ((createChunks split pages book).map (fun c => c.id)).Nodup := by
  obtain ⟨hmap, _⟩ := processPages_cid split book pages 0
  constructor
  · rw [createChunks, hmap]
    exact List.pairwise_lt_range' 0 _
  · have hdecode : ((createChunks split pages book).map
        (fun c => c.id)).map decodeTrailingNat =
        (createChunks split pages book).map (fun c => c.chunk_id) := by
      rw [List.map_map]
      apply List.map_congr_left
      intro c hc
      obtain ⟨_, hid⟩ := processPages_mem split book pages 0 c hc
      show decodeTrailingNat c.id = c.chunk_id
      rw [hid]
      exact decode_mkChunkId book c.page c.paragraph c.chunk_id
    apply List.Nodup.of_map decodeTrailingNat
    rw [hdecode, createChunks, hmap]
    exact List.nodup_range' 0 _

theorem processParas_para_ge (book : String) (pn : Nat) :
    ∀ (ps : List String) (j cid : Nat) (c : Chunk),
      c ∈ (processParas book pn ps j cid).1 → j ≤ c.paragraph := by
  intro ps
  induction ps with
  | nil => intro j cid c hc; simp [processParas] at hc
  | cons p rest ih =>
    intro j cid c hc
    by_cases hp : (pysplit p).length < 20
    · rw [processParas, if_pos hp] at hc
      have := ih (j + 1) cid c hc
      omega
    · rw [processParas, if_neg hp] at hc
      rw [List.mem_append] at hc
      cases hc with
      | inl h =>
        obtain ⟨_, h2, _⟩ := emitPara_mem book pn j (chunkText p) cid c h
        omega
      | inr h =>
        have := ih (j + 1) _ c h
        omega

theorem processParas_para_none (book : String) (pn : Nat) :
    ∀ (ps : List String) (j cid i : Nat) (hi : i < ps.length),
      (pysplit (ps.get ⟨i, hi⟩)).length < 20 →
      ∀ c ∈ (processParas book pn ps j cid).1, c.paragraph ≠ j + i := by
  intro ps
  induction ps with
  | nil => intro j cid i hi; simp at hi
  | cons p rest ih =>
    intro j cid i hi hshort c hc
    cases i with
    | zero =>
      have hp : (pysplit p).length < 20 := hshort
      rw [processParas, if_pos hp] at hc
      have := processParas_para_ge book pn rest (j + 1) cid c hc
      omega
    | succ i2 =>
      have hi2 : i2 < rest.length := by
        simp only [List.length_cons] at hi
        omega
      have hshort2 : (pysplit (rest.get ⟨i2, hi2⟩)).length < 20 := hshort
      by_cases hp : (pysplit p).length < 20
      · rw [processParas, if_pos hp] at hc
        have := ih (j + 1) cid i2 hi2 hshort2 c hc
        omega
      · rw [processParas, if_neg hp] at hc
        rw [List.mem_append] at hc
        cases hc with
        | inl h =>
          obtain ⟨_, h2, _⟩ := emitPara_mem book pn j (chunkText p) cid c h
          omega
        | inr h =>
          have := ih (j + 1) _ i2 hi2 hshort2 c h
          omega

theorem chunkText_ne_nil {p : String} (h : pysplit p ≠ []) :
    chunkText p ≠ [] := by
  unfold chunkText chunkTextP
  simp only [ne_eq, List.map_eq_nil_iff]
  exact chunkWords_ne_nil _ (by decide) h

theorem processParas_para_some (book : String) (pn : Nat) :
    ∀ (ps : List String) (j cid i : Nat) (hi : i < ps.length),
      20 ≤ (pysplit (ps.get ⟨i, hi⟩)).length →
      ∃ c ∈ (processParas book pn ps j cid).1,
        c.page = pn ∧ c.paragraph = j + i := by
  intro ps
  induction ps with
  | nil => intro j cid i hi; simp at hi
  | cons p rest ih =>
    intro j cid i hi hlong
    cases i with
    | zero =>
      have hlong0 : 20 ≤ (pysplit p).length := hlong
      have hp : ¬((pysplit p).length < 20) := by omega
      rw [processParas, if_neg hp]
      have hne : pysplit p ≠ [] := by
        intro h
        rw [h] at hlong0
        simp at hlong0
      have hcne : chunkText p ≠ [] := chunkText_ne_nil hne
      have hlen0 : (emitPara book pn j (chunkText p) cid).1 ≠ [] := by
        intro h0
        have hl := emitPara_length book pn j (chunkText p) cid
        rw [h0] at hl
        simp only [List.length_nil] at hl
        exact hcne (List.length_eq_zero.mp hl.symm)
      obtain ⟨c, hc⟩ := List.exists_mem_of_ne_nil _ hlen0
      obtain ⟨h1, h2, _⟩ := emitPara_mem book pn j (chunkText p) cid c hc
      refine ⟨c, ?_, h1, by omega⟩
      rw [List.mem_append]
      exact Or.inl hc
    | succ i2 =>
      have hi2 : i2 < rest.length := by
        simp only [List.length_cons] at hi
        omega
      have hlong2 : 20 ≤ (pysplit (rest.get ⟨i2, hi2⟩)).length := hlong
      by_cases hp : (pysplit p).length < 20
      · rw [processParas, if_pos hp]
        obtain ⟨c, hc, h1, h2⟩ := ih (j + 1) cid i2 hi2 hlong2
        exact ⟨c, hc, h1, by omega⟩
      · rw [processParas, if_neg hp]
        obtain ⟨c, hc, h1, h2⟩ :=
          ih (j + 1) (emitPara book pn j (chunkText p) cid).2 i2 hi2 hlong2
        refine ⟨c, ?_, h1, by omega⟩
        rw [List.mem_append]
        exact Or.inr hc

theorem processPages_para_some (split : String → List String) (book : String)
    {pg : Page} {i : Nat} (hi : i < (split pg.text).length)
    (hlong : 20 ≤ (pysplit ((split pg.text).get ⟨i, hi⟩)).length) :
    ∀ (pages : List Page) (cid : Nat), pg ∈ pages →
      ∃ c ∈ (processPages split book pages cid).1,
        c.page = pg.page_number ∧ c.paragraph = i + 1 := by
  intro pages
  induction pages with
  | nil => intro cid hmem; simp at hmem
  | cons pg0 rest ih =>
    intro cid hmem
    rw [List.mem_cons] at hmem
    rw [processPages]
    cases hmem with
    | inl h =>
      subst h
      obtain ⟨c, hc, h1, h2⟩ :=
        processParas_para_some book pg.page_number (split pg.text) 1 cid i hi hlong
      refine ⟨c, ?_, h1, by omega⟩
      rw [List.mem_append]
      exact Or.inl hc
    | inr h =>
      obtain ⟨c, hc, h1, h2⟩ := ih _ h
      refine ⟨c, ?_, h1, h2⟩
      rw [List.mem_append]
      exact Or.inr hc

theorem processPages_para_none (split : String → List String) (book : String)
    {pg : Page} {i : Nat} (hi : i < (split pg.text).length)
    (hshort : (pysplit ((split pg.text).get ⟨i, hi⟩)).length < 20) :
    ∀ (pages : List Page) (cid : Nat), pg ∈ pages →
      pages.Pairwise (fun a b => a.page_number ≠ b.page_number) →
      ∀ c ∈ (processPages split book pages cid).1,
        ¬(c.page = pg.page_number ∧ c.paragraph = i + 1) := by
  intro pages
  induction pages with
  | nil => intro cid hmem; simp at hmem
  | cons pg0 rest ih =>
    intro cid hmem hpw c hc hcontra
    rw [List.mem_cons] at hmem
    rw [List.pairwise_cons] at hpw
    rw [processPages, List.mem_append] at hc
    cases hc with
    | inl h =>
      obtain ⟨hpage, _, _⟩ :=
        processParas_mem book pg0.page_number (split pg0.text) 1 cid c h
      cases hmem with
      | inl heq =>
        subst heq
        exact processParas_para_none book pg.page_number (split pg.text)
          1 cid i hi hshort c h (by omega)
      | inr hrest =>
        exact hpw.1 pg hrest (by rw [← hpage, hcontra.1])
    | inr h =>
      obtain ⟨⟨pg2, hpg2, hpage⟩, _⟩ := processPages_mem split book rest _ c h
      cases hmem with
      | inl heq =>
        subst heq
        exact hpw.1 pg2 hpg2 (by rw [← hpage, hcontra.1])
      | inr hrest =>
        exact ih _ hrest hpw.2 c h hcontra

/-- C7 (confirmed): for every page of a run with distinct page numbers and
every paragraph produced by paragraph splitting, `create_chunks` emits at
least one chunk carrying that page number and that 1-based paragraph
ordinal when the paragraph has at least 20 whitespace-delimited words, and
no such chunk when it has fewer than 20. -/
theorem c7_short_paragraph_threshold (split : String → List String)
    (book : String) (pages : List Page) (pg : Page) (i : Nat)
    (hpg : pg ∈ pages)
    (hnum : pages.Pairwise (fun a b => a.page_number ≠ b.page_number))
    (hi : i < (split pg.text).length) :
    (20 ≤ (pysplit ((split pg.text).get ⟨i, hi⟩)).length →
      (createChunks split pages book).filter
        (fun c => c.page == pg.page_number && c.paragraph == i + 1) ≠ []) ∧
    ((pysplit ((split pg.text).get ⟨i, hi⟩)).length < 20 →
      (createChunks split pages book).filter
        (fun c => c.page == pg.page_number && c.paragraph == i + 1) = []) := by
  constructor
  · intro hlong
    obtain ⟨c, hc, h1, h2⟩ :=
      processPages_para_some split book hi hlong pages 0 hpg
    apply List.ne_nil_of_mem (a := c)
    rw [List.mem_filter]
    refine ⟨hc, ?_⟩
    simp [h1, h2]
  · intro hshort
    rw [List.filter_eq_nil_iff]
    intro c hc hpred
    simp only [Bool.and_eq_true, beq_iff_eq] at hpred
    exact processPages_para_none split book hi hshort pages 0 hpg hnum c hc
      ⟨hpred.1, hpred.2⟩

/-- Witness for `c7_short_paragraph_threshold`: a one-page run whose single
paragraph has 20 words produces a chunk for that paragraph. -/
theorem c7_witness :
    (Page.mk 1 para20) ∈ [Page.mk 1 para20] ∧
    20 ≤ (pysplit (([para20].get ⟨0, by decide⟩))).length ∧
    (createChunks (fun _ => [para20]) [Page.mk 1 para20] "TestBook").filter
      (fun c => c.page == (1 : Nat) && c.paragraph == (1 : Nat)) ≠ [] := by
  refine ⟨by decide, by decide, ?_⟩
  exact (c7_short_paragraph_threshold (fun _ => [para20]) "TestBook"
    [Page.mk 1 para20] (Page.mk 1 para20) 0 (by simp)
    (by simp) (by decide)).1 (by decide)

/-- A retrieved document as consumed by `LLMChain` (src/rag/llm_chain.py):
only the `text`, `book`, `page` and `paragraph` fields are read. -/
structure RetrievedDoc where
  text : String
  book : String
  page : Nat
  paragraph : Nat
deriving DecidableEq

/-- A reference as built by `LLMChain._create_references`. -/
structure Reference where
  book : String
  page : Nat
  paragraph : Nat
  summary : String
deriving DecidableEq

/-- The dictionary returned by `LLMChain.generate_answer` /
`LLMChain._parse_response`. -/
structure AnswerResult where
  answer : String
  explanation : String
  references : List Reference
deriving DecidableEq

/-- One `[Source i]` block of `LLMChain._build_context`
(src/rag/llm_chain.py lines 62-65). -/
def sourceLabel (i : Nat) (d : RetrievedDoc) : String :=
  "[Source " ++ natStr i ++ "] " ++ d.book ++ " (Page " ++ natStr d.page ++
    "):\n" ++ d.text ++ "\n"

/-- The per-document blocks of `_build_context`, one per incoming document,
numbered from 1 (`enumerate(docs, 1)`). -/
def contextParts (docs : List RetrievedDoc) : List String :=
  (docs.enumFrom 1).map (fun p => sourceLabel p.1 p.2)

/-- `LLMChain._build_context` (src/rag/llm_chain.py lines 59-66). -/
def buildContext (docs : List RetrievedDoc) : String :=
  String.intercalate "\n" (contextParts docs)

/-- `LLMChain._create_prompt` (src/rag/llm_chain.py lines 68-88). -/
def createPrompt (question context : String) : String :=
  "You are a medical professor teaching AIIMS final year students. Answer the question using ONLY the provided context from medical textbooks.\n\nCONTEXT:\n"
    ++ context
    ++ "\n\nQUESTION: " ++ question
    ++ "\n\nProvide your response in the following format:\n\nANSWER:\n[Give a direct, accurate answer grounded in the context. Be precise and medically accurate.]\n\nTEACHER EXPLANATION:\n[Explain this concept as if teaching a student. Use simple language, analogies, and break down complex terms. Help them understand the \"why\" and \"how\".]\n\nSIMPLIFIED VERSION:\n[Provide a very simple 2-3 sentence explanation that a layperson could understand.]\n\nRemember: Base everything on the provided context. Cite specific sources when making claims."

/-- `LLMChain._create_references` (src/rag/llm_chain.py lines 113-124):
project the first 3 documents, truncating each text to 300 characters with
a "..." marker when longer. -/
def createReferences (docs : List RetrievedDoc) : List Reference :=
  (docs.take 3).map (fun d =>
    { book := d.book, page := d.page, paragraph := d.paragraph,
      summary := if d.text.length > 300 then d.text.take 300 ++ "..."
        else d.text })

/-- `LLMChain._parse_response` (src/rag/llm_chain.py lines 126-155): split
on the literal section markers; the fallback `except` branch of the source
is unreachable because every list access in the body is guarded, so the
function is total. -/
def parseResponse (response : String) (docs : List RetrievedDoc) :
    AnswerResult :=
  let sections := response.splitOn "TEACHER EXPLANATION:"
  let answer := ((sections.headD "").replace "ANSWER:" "").trim
  let rest := if sections.length > 1 then (sections.drop 1).headD "" else ""
  let explanationParts := rest.splitOn "SIMPLIFIED VERSION:"
  let explanation := (explanationParts.headD "").trim
  let simplified :=
    if explanationParts.length > 1 then
      ((explanationParts.drop 1).headD "").trim
    else ""
  let fullExplanation :=
    if simplified ≠ "" then
      explanation ++ "\n\n**In Simple Terms:**\n" ++ simplified
    else explanation
  { answer := answer, explanation := fullExplanation,
    references := createReferences docs }

/-- The fixed prefix of the degraded answer of src/rag/llm_chain.py line
49; the Python f-string appends `str(e2)`, the fallback error message. -/
def degradedAnswerHead : String :=
  "I found relevant information but couldn't generate a complete answer. Error: "

/-- The fixed degraded explanation of src/rag/llm_chain.py line 50. -/
def degradedExplanation : String :=
  "Please try rephrasing your question or check your Groq API key."

/-- `LLMChain.generate_answer` (src/rag/llm_chain.py lines 21-57).  The
external generation service (`_call_groq`) is modelled as a function from
model name and prompt to either a response text or an error message
(`Except.error e` models `_call_groq` raising, with `e` the text Python
renders as `str(e)`). -/
def generateAnswer (callGroq : String → String → Except String String)
    (question : String) (docs : List RetrievedDoc) : AnswerResult :=
  let context := buildContext docs
  let prompt := createPrompt question context
  match callGroq Config.GROQ_MODEL_PRIMARY prompt with
  | Except.ok response => parseResponse response docs
  | Except.error _ =>
    match callGroq Config.GROQ_MODEL_FALLBACK prompt with
    | Except.ok response => parseResponse response docs
    | Except.error e2 =>
      { answer := degradedAnswerHead ++ e2,
        explanation := degradedExplanation,
        references := createReferences docs }

/-- Character-level lowercase of a string. -/
def lowerStr (s : String) : String := String.mk (s.data.map Char.toLower)

/-- The deduplication key the SPEC describes (section 4.5 step 1): the
lowercase, whitespace-normalized first 50 words of a document's text.
This definition follows the spec's words, not the source: the source has
no deduplication, which is what claim C2 is settled against. -/
def specDedupKey (d : RetrievedDoc) : List String :=
  ((pysplit d.text).take 50).map (fun w => lowerStr w)

/-- Helper for `specDedup`: keep the first occurrence of each distinct
key. -/
def specDedupAux : List RetrievedDoc → List (List String) → List RetrievedDoc
  | [], _ => []
  | d :: ds, seen =>
    if specDedupKey d ∈ seen then specDedupAux ds seen
    else d :: specDedupAux ds (specDedupKey d :: seen)

/-- The deduplication the SPEC describes (section 4.5 step 1), following
the spec's words: keep the first occurrence (by incoming rank) of each
distinct normalized prefix and cap the result at 10 documents. -/
def specDedup (docs : List RetrievedDoc) : List RetrievedDoc :=
  (specDedupAux docs []).take 10

/-- A concrete retrieved document, duplicated in the C2 counterexample. -/
def docA : RetrievedDoc :=
  { text := "t", book := "B", page := 1, paragraph := 1 }

/-- C2 (counterexample): `generate_answer` does not deduplicate.  Feeding
the same document twice (identical texts, hence identical normalized
50-word prefixes), the references of the produced answer contain both
copies — they equal `_create_references` of the full incoming list and
differ from the references the claimed dedup-then-project pipeline would
yield, which keeps only the first occurrence. -/
theorem c2_counterexample :
    (generateAnswer (fun _ _ => Except.error "down") "q" [docA, docA]).references
      = createReferences [docA, docA] ∧
    (generateAnswer (fun _ _ => Except.error "down") "q" [docA, docA]).references.length
      = 2 ∧
    (createReferences (specDedup [docA, docA])).length = 1 := by
  decide

/-- C2 (amended): `generate_answer` performs no deduplication and applies
no cap: whatever the generation outcome, the references equal
`_create_references` of the full incoming document list, and the context is
built from one `[Source i]` block per incoming document, duplicates
included. -/
theorem c2_no_dedup (callGroq : String → String → Except String String)
    (question : String) (docs : List RetrievedDoc) :
    (generateAnswer callGroq question docs).references =
      createReferences docs ∧
    (contextParts docs).length = docs.length := by
  constructor
  · simp only [generateAnswer]
    cases callGroq Config.GROQ_MODEL_PRIMARY
        (createPrompt question (buildContext docs)) with
    | ok r => rfl
    | error e =>
      cases callGroq Config.GROQ_MODEL_FALLBACK
          (createPrompt question (buildContext docs)) with
      | ok r => rfl
      | error e2 => rfl
  · unfold contextParts
    rw [List.length_map, List.enumFrom_length]

/-- A failing generation service whose error message echoes the prompt it
received, as a Python exception wrapping request details may. -/
def echoFail : String → String → Except String String :=
  fun _ prompt => Except.error prompt

/-- C4 (counterexample): the degraded answer is not a fixed,
input-independent string: the source appends `str(e2)` — the fallback
error — to the apology prefix, and the error can depend on the request, so
two different questions can produce two different degraded answers. -/
theorem c4_counterexample :
    (generateAnswer echoFail "q1" [docA]).answer ≠
      (generateAnswer echoFail "q2" [docA]).answer := by
  decide

/-- C4 (amended): when the generation call fails on both the primary and
the fallback model, `generate_answer` returns (does not raise) a result
whose answer is the fixed apology prefix followed by the fallback error
message (not a fully fixed string), whose explanation is a fixed string,
and whose references are still computed from the retrieved documents and
are non-empty whenever the retrieved list is non-empty. -/
theorem c4_degraded_with_references
    (callGroq : String → String → Except String String)
    (question : String) (docs : List RetrievedDoc) (e1 e2 : String)
    (h1 : callGroq Config.GROQ_MODEL_PRIMARY
      (createPrompt question (buildContext docs)) = Except.error e1)
    (h2 : callGroq Config.GROQ_MODEL_FALLBACK
      (createPrompt question (buildContext docs)) = Except.error e2) :
    generateAnswer callGroq question docs =
      { answer := degradedAnswerHead ++ e2,
        explanation := degradedExplanation,
        references := createReferences docs } ∧
    (docs ≠ [] → (generateAnswer callGroq question docs).references ≠ []) := by
  have hmain : generateAnswer callGroq question docs =
      { answer := degradedAnswerHead ++ e2,
        explanation := degradedExplanation,
        references := createReferences docs } := by
    simp only [generateAnswer]
    rw [h1, h2]
  refine ⟨hmain, fun hne => ?_⟩
  rw [hmain]
  show createReferences docs ≠ []
  unfold createReferences
  intro hcontra
  rw [List.map_eq_nil_iff, List.take_eq_nil_iff] at hcontra
  cases hcontra with
  | inl h => exact absurd h (by decide)
  | inr h => exact hne h

/-- Witness for `c4_degraded_with_references`: a concrete service failing
on both models with message "down". -/
theorem c4_degraded_witness :
    generateAnswer (fun _ _ => Except.error "down") "q" [docA] =
      { answer := degradedAnswerHead ++ "down",
        explanation := degradedExplanation,
        references := createReferences [docA] } ∧
    ([docA] ≠ ([] : List RetrievedDoc) →
      (generateAnswer (fun _ _ => Except.error "down") "q" [docA]).references ≠ []) :=
  c4_degraded_with_references (fun _ _ => Except.error "down") "q" [docA]
    "down" "down" rfl rfl

/-- C8 (confirmed): the reference list contains the projections of at most
the first 3 documents (within the claimed 3-5), in incoming order: the
reference at rank i is the projection of the document at rank i, carrying
its book, page and paragraph, with the excerpt equal to the text when it is
at most 300 characters and to the first 300 characters followed by the
"..." marker when longer. -/
theorem c8_references_projection (docs : List RetrievedDoc) :
    (createReferences docs).length ≤ 3 ∧
    ∀ (i : Nat) (r : Reference), (createReferences docs)[i]? = some r →
      ∃ d, docs[i]? = some d ∧ r.book = d.book ∧ r.page = d.page ∧
        r.paragraph = d.paragraph ∧
        (d.text.length ≤ 300 → r.summary = d.text) ∧
        (300 < d.text.length → r.summary = d.text.take 300 ++ "...") := by
  constructor
  · unfold createReferences
    rw [List.length_map]
    have := List.length_take_le 3 docs
    omega
  · intro i r hr
    unfold createReferences at hr
    rw [List.getElem?_map] at hr
    cases hd : (docs.take 3)[i]? with
    | none => rw [hd] at hr; simp at hr
    | some d =>
      rw [hd] at hr
      rw [Option.map_some'] at hr
      rw [Option.some.injEq] at hr
      have hilen : i < (docs.take 3).length := by
        by_contra hge
        rw [List.getElem?_eq_none (by omega)] at hd
        exact Option.noConfusion hd
      have hi3 : i < 3 :=
        Nat.lt_of_lt_of_le hilen (List.length_take_le 3 docs)
      have hdoc : docs[i]? = some d := by
        rw [← List.getElem?_take_of_lt hi3]
        exact hd
      refine ⟨d, hdoc, ?_, ?_, ?_, ?_, ?_⟩
      · rw [← hr]
      · rw [← hr]
      · rw [← hr]
      · intro hle
        rw [← hr]
        show (if d.text.length > 300 then d.text.take 300 ++ "..."
          else d.text) = d.text
        rw [if_neg (by omega)]
      · intro hgt
        rw [← hr]
        show (if d.text.length > 300 then d.text.take 300 ++ "..."
          else d.text) = d.text.take 300 ++ "..."
        rw [if_pos (by omega)]

/-- Witness for `c8_references_projection`: the single-document list
`[docA]` has its short text kept whole as the excerpt of reference 0. -/
theorem c8_references_witness :
    ∃ d, ([docA])[0]? = some d ∧
      (Reference.mk "B" 1 1 "t").book = d.book ∧
      (Reference.mk "B" 1 1 "t").page = d.page ∧
      (Reference.mk "B" 1 1 "t").paragraph = d.paragraph ∧
      (d.text.length ≤ 300 → (Reference.mk "B" 1 1 "t").summary = d.text) ∧
      (300 < d.text.length →
        (Reference.mk "B" 1 1 "t").summary = d.text.take 300 ++ "...") :=
  (c8_references_projection [docA]).2 0 (Reference.mk "B" 1 1 "t") (by decide)

/-- The configuration state `Config.validate` examines
(src/utils/config.py): the API keys as the environment provides them
(`None` when unset), plus the chunk-size fields the spec's validation claim
is about.  Python truthiness of `os.getenv` results: `None` and the empty
string are falsy. -/
structure ConfigData where
  pinecone_api_key : Option String
  groq_api_key : Option String
  chunk_size : Nat
  chunk_overlap : Nat
deriving DecidableEq

/-- Python truthiness of an optional environment string. -/
def pyTruthy : Option String → Bool
  | none => false
  | some s => s != ""

/-- `Config.validate` (src/utils/config.py lines 45-52): raise on a falsy
`PINECONE_API_KEY` or `GROQ_API_KEY`, otherwise return `True`.  No other
field is examined. -/
def validate (cfg : ConfigData) : Except String Bool :=
  if !pyTruthy cfg.pinecone_api_key then
    Except.error "PINECONE_API_KEY not found in environment"
  else if !pyTruthy cfg.groq_api_key then
    Except.error "GROQ_API_KEY not found in environment"
  else Except.ok true

/-- The degenerate configuration of claim C5: both keys present, but
`CHUNK_OVERLAP_TOKENS = CHUNK_SIZE_TOKENS`. -/
def degenerateConfig : ConfigData :=
  { pinecone_api_key := some "k1", groq_api_key := some "k2",
    chunk_size := 1200, chunk_overlap := 1200 }

/-- C5 (code bug): `Config.validate` accepts a configuration with
`CHUNK_OVERLAP_TOKENS >= CHUNK_SIZE_TOKENS` — it only checks the two API
keys — even though the resulting window step
`int(chunk_size*0.75) - int(chunk_overlap*0.75)` is 0, which makes the
`_chunk_text` loop non-advancing, exactly the state the spec requires to
be rejected at configuration time. -/
theorem c5_validate_accepts_degenerate :
    degenerateConfig.chunk_size ≤ degenerateConfig.chunk_overlap ∧
    validate degenerateConfig = Except.ok true ∧
    degenerateConfig.chunk_size * 3 / 4 - degenerateConfig.chunk_overlap * 3 / 4
      = 0 :=
  ⟨by decide, rfl, by decide⟩

/-- The index statistics dictionary consumed by
`PineconeDB.check_if_populated` (src/vectorstore/pinecone_db.py lines
110-114): `stats.get('total_vector_count', 0)` reads an optional field
with default 0. -/
structure IndexStats where
  total_vector_count : Option Nat
deriving DecidableEq

/-- `PineconeDB.check_if_populated` (src/vectorstore/pinecone_db.py lines
110-114). -/
def checkIfPopulated (s : IndexStats) : Bool :=
  decide (s.total_vector_count.getD 0 > 0)

/-- `RAGRetriever.__init__` (src/rag/retriever.py lines 16-25), modelled on
the index state it observes: construction raises `ValueError` when the
populated check fails, before any retrieve call can exist. -/
def mkRetriever (s : IndexStats) : Except String Unit :=
  if !(checkIfPopulated s) then
    Except.error "Pinecone index is empty. Please run admin/ingest_books.py first."
  else Except.ok ()

/-- C6 (confirmed): whenever the population check reports an empty index,
constructing the Retriever fails with an error, so no retrieve call can
ever run against an empty index. -/
theorem c6_retriever_fails_fast (s : IndexStats)
    (h : checkIfPopulated s = false) :
    mkRetriever s =
      Except.error
        "Pinecone index is empty. Please run admin/ingest_books.py first." := by
  unfold mkRetriever
  rw [h]
  rfl

/-- Witness for `c6_retriever_fails_fast`: a stats dictionary reporting
zero vectors. -/
theorem c6_retriever_witness :
    checkIfPopulated (IndexStats.mk (some 0)) = false ∧
    mkRetriever (IndexStats.mk (some 0)) =
      Except.error
        "Pinecone index is empty. Please run admin/ingest_books.py first." :=
  ⟨by decide, c6_retriever_fails_fast (IndexStats.mk (some 0)) (by decide)⟩

/-- The metadata dictionary of one query match: the four fields
`PineconeDB.query` reads with `.get` may each be absent. -/
structure MatchMeta where
  text : Option String
  book : Option String
  page : Option Nat
  paragraph : Option Nat
deriving DecidableEq

/-- One match of the index service's query response; the score type is kept
abstract (a float in the source, never computed on during formatting). -/
structure QueryMatch (σ : Type) where
  id : String
  score : σ
  metadata : MatchMeta
deriving DecidableEq

/-- One formatted document of `PineconeDB.query`: all six keys are always
present by construction. -/
structure QueryDoc (σ : Type) where
  id : String
  score : σ
  text : String
  book : String
  page : Nat
  paragraph : Nat
deriving DecidableEq

/-- The result-formatting loop of `PineconeDB.query`
(src/vectorstore/pinecone_db.py lines 84-95): each match is projected to a
six-field document, reading the optional metadata fields with defaults
(`''` for text and book, `0` for page and paragraph).  The function is
total: no metadata shape can make it fail. -/
def formatMatches {σ : Type} (ms : List (QueryMatch σ)) :
    List (QueryDoc σ) :=
  ms.map (fun m =>
    { id := m.id, score := m.score,
      text := m.metadata.text.getD "",
      book := m.metadata.book.getD "",
      page := m.metadata.page.getD 0,
      paragraph := m.metadata.paragraph.getD 0 })

/-- C10 (confirmed): query-result formatting never fails: it is a total
projection that preserves the order and length of the service's match
list, and the document at each rank carries the match's id and score with
absent metadata fields replaced by the defaults (`''` for text and book,
`0` for page and paragraph). -/
theorem c10_query_format_total {σ : Type} (ms : List (QueryMatch σ)) :
    (formatMatches ms).length = ms.length ∧
    ∀ i : Nat, (formatMatches ms)[i]? = (ms[i]?).map (fun m =>
      { id := m.id, score := m.score,
        text := m.metadata.text.getD "",
        book := m.metadata.book.getD "",
        page := m.metadata.page.getD 0,
        paragraph := m.metadata.paragraph.getD 0 }) := by
  constructor
  · unfold formatMatches
    rw [List.length_map]
  · intro i
    unfold formatMatches
    rw [List.getElem?_map]

end MedicalRag
